import Mathlib

/-!
Shallow embedding of the IKOL autonomous agent (src/main.py) and proofs
about its specification. Python text is modelled as List Char, Python/JSON
values as the inductive type JVal, and fallible Python code as Except over
a small exception type.
-/

/-- Model of a Python value in the JSON fragment, as produced by the json
module. Integral JSON numbers become num, numbers with a fractional part or
an exponent become fnum m e denoting m times ten to the power e (decimal,
not IEEE; no claim compares float values). Objects are association lists in
insertion order, as Python dicts. -/
inductive JVal where
  | null : JVal
  | bool : Bool → JVal
  | num : Int → JVal
  | fnum : Int → Int → JVal
  | str : List Char → JVal
  | arr : List JVal → JVal
  | obj : List (List Char × JVal) → JVal

/-- Whitespace characters removed by Python str.strip with no arguments
(ASCII part; the rare non-ASCII Python whitespace is not modelled, no claim
uses it). -/
def pyIsSpace (c : Char) : Bool :=
  c = ' ' || c = '\t' || c = '\n' || c = '\r' || c = '\x0b' || c = '\x0c'

/-- Model of Python str.strip with no arguments. -/
def pyStrip (s : List Char) : List Char :=
  ((s.dropWhile pyIsSpace).reverse.dropWhile pyIsSpace).reverse

/-- Whitespace skipped between tokens by the json module. -/
def jsonWs (c : Char) : Bool := c = ' ' || c = '\t' || c = '\n' || c = '\r'

/-- Drop leading JSON whitespace. -/
def skipWs (s : List Char) : List Char := s.dropWhile jsonWs

/-- Decimal digits to a natural number. -/
def digitsToNat (ds : List Char) : Nat :=
  ds.foldl (fun a c => a * 10 + (c.toNat - 48)) 0

/-- Integer-part digits of a JSON number: a single zero, or a nonzero digit
followed by digits (leading zeros end the match, as in the json module's
number regex). -/
def pIntPart : List Char → Option (List Char × List Char)
  | [] => none
  | c :: rest =>
    if c = '0' then some ([c], rest)
    else if c.isDigit then
      some (c :: rest.takeWhile Char.isDigit, rest.dropWhile Char.isDigit)
    else none

/-- Model of the json module's number token: maximal match of the pattern
minus-question int frac-question exp-question; unmatched trailing dot or
exponent marker is left in the remainder, as the regex does. -/
def pNum (s : List Char) : Option (JVal × List Char) :=
  let negp : Bool × List Char :=
    match s with
    | '-' :: rest => (true, rest)
    | _ => (false, s)
  match pIntPart negp.2 with
  | none => none
  | some (ids, s2) =>
    let fracp : List Char × List Char :=
      match s2 with
      | '.' :: r =>
        if (r.takeWhile Char.isDigit).isEmpty then ([], s2)
        else (r.takeWhile Char.isDigit, r.dropWhile Char.isDigit)
      | _ => ([], s2)
    let fds := fracp.1
    let s3 := fracp.2
    let expp : Option Int × List Char :=
      match s3 with
      | e :: r =>
        if e = 'e' || e = 'E' then
          let sgnp : Bool × List Char :=
            match r with
            | '+' :: r2 => (false, r2)
            | '-' :: r2 => (true, r2)
            | _ => (false, r)
          let eds := sgnp.2.takeWhile Char.isDigit
          if eds.isEmpty then (none, s3)
          else
            let ev : Int := Int.ofNat (digitsToNat eds)
            (some (if sgnp.1 then -ev else ev), sgnp.2.dropWhile Char.isDigit)
        else (none, s3)
      | [] => (none, s3)
    let mAbs : Int := Int.ofNat (digitsToNat (ids ++ fds))
    let m : Int := if negp.1 then -mAbs else mAbs
    if fds.isEmpty && expp.1.isNone then some (JVal.num m, expp.2)
    else some (JVal.fnum m ((expp.1.getD 0) - Int.ofNat fds.length), expp.2)

/-- Value of a hexadecimal digit. -/
def hexVal (c : Char) : Option Nat :=
  if c.isDigit then some (c.toNat - 48)
  else if 'a' ≤ c && c ≤ 'f' then some (c.toNat - 87)
  else if 'A' ≤ c && c ≤ 'F' then some (c.toNat - 55)
  else none

/-- Parse the remainder of a JSON string literal after the opening quote,
returning the decoded characters and the input after the closing quote.
Strict mode as in json.loads: raw control characters are rejected. Unicode
escapes are decoded when they denote a scalar value; surrogate halves are
rejected (Lean Char cannot hold them), a deliberate narrowing of CPython
that no claim exercises. -/
def pString : Nat → List Char → Option (List Char × List Char)
  | 0, _ => none
  | _, [] => none
  | fuel+1, c :: rest =>
    if c = '"' then some ([], rest)
    else if c = '\\' then
      match rest with
      | [] => none
      | e :: r2 =>
        let dec : Option (Char × List Char) :=
          if e = '"' then some ('"', r2)
          else if e = '\\' then some ('\\', r2)
          else if e = '/' then some ('/', r2)
          else if e = 'b' then some ('\x08', r2)
          else if e = 'f' then some ('\x0c', r2)
          else if e = 'n' then some ('\n', r2)
          else if e = 'r' then some ('\r', r2)
          else if e = 't' then some ('\t', r2)
          else if e = 'u' then
            match r2 with
            | h1 :: h2 :: h3 :: h4 :: r3 =>
              match hexVal h1, hexVal h2, hexVal h3, hexVal h4 with
              | some a, some b, some c3, some d =>
                let n := ((a * 16 + b) * 16 + c3) * 16 + d
                if n < 55296 || 57343 < n then some (Char.ofNat n, r3) else none
              | _, _, _, _ => none
            | _ => none
          else none
        match dec with
        | none => none
        | some (ch, r3) =>
          match pString fuel r3 with
          | some (cs, rest2) => some (ch :: cs, rest2)
          | none => none
    else if c.toNat < 32 then none
    else
      match pString fuel rest with
      | some (cs, rest2) => some (c :: cs, rest2)
      | none => none

/-- Set a key in a Python dict modelled as an association list: an existing
key keeps its position and gets the new value, a new key is appended. -/
def objSet : List (List Char × JVal) → List Char → JVal → List (List Char × JVal)
  | [], k, v => [(k, v)]
  | (k0, v0) :: rest, k, v =>
    if k0 = k then (k0, v) :: rest else (k0, v0) :: objSet rest k v

mutual

/-- Parse one JSON value, modelling the json module scanner. Fuel decreases
on every recursive call; jsonParse supplies enough for any input. -/
def pVal : Nat → List Char → Option (JVal × List Char)
  | 0, _ => none
  | fuel+1, s =>
    match skipWs s with
    | [] => none
    | 'n' :: 'u' :: 'l' :: 'l' :: rest => some (JVal.null, rest)
    | 't' :: 'r' :: 'u' :: 'e' :: rest => some (JVal.bool true, rest)
    | 'f' :: 'a' :: 'l' :: 's' :: 'e' :: rest => some (JVal.bool false, rest)
    | '"' :: rest =>
      match pString (rest.length + 1) rest with
      | some (cs, rest2) => some (JVal.str cs, rest2)
      | none => none
    | '[' :: rest =>
      match skipWs rest with
      | ']' :: rest2 => some (JVal.arr [], rest2)
      | s2 =>
        match pArrItems fuel s2 with
        | some (xs, rest2) => some (JVal.arr xs, rest2)
        | none => none
    | '{' :: rest =>
      match skipWs rest with
      | '}' :: rest2 => some (JVal.obj [], rest2)
      | s2 =>
        match pObjItems fuel s2 [] with
        | some (kvs, rest2) => some (JVal.obj kvs, rest2)
        | none => none
    | s1 => pNum s1

/-- Parse array items after the opening bracket (nonempty case), up to and
including the closing bracket. -/
def pArrItems : Nat → List Char → Option (List JVal × List Char)
  | 0, _ => none
  | fuel+1, s =>
    match pVal fuel s with
    | none => none
    | some (v, rest) =>
      match skipWs rest with
      | ',' :: rest2 =>
        match pArrItems fuel rest2 with
        | some (xs, rest3) => some (v :: xs, rest3)
        | none => none
      | ']' :: rest2 => some ([v], rest2)
      | _ => none

/-- Parse object members after the opening brace (nonempty case), up to and
including the closing brace. Duplicate keys resolve as in Python dicts. -/
def pObjItems : Nat → List Char → List (List Char × JVal) →
    Option (List (List Char × JVal) × List Char)
  | 0, _, _ => none
  | fuel+1, s, acc =>
    match skipWs s with
    | '"' :: rest =>
      match pString (rest.length + 1) rest with
      | none => none
      | some (k, rest2) =>
        match skipWs rest2 with
        | ':' :: rest3 =>
          match pVal fuel rest3 with
          | none => none
          | some (v, rest4) =>
            match skipWs rest4 with
            | ',' :: rest5 => pObjItems fuel rest5 (objSet acc k v)
            | '}' :: rest5 => some (objSet acc k v, rest5)
            | _ => none
        | _ => none
    | _ => none

end

/-- Model of json.loads: parse one value surrounded by optional whitespace;
trailing content is an error. The result none models JSONDecodeError. -/
def jsonParse (s : List Char) : Option JVal :=
  match pVal (2 * s.length + 2) s with
  | some (v, rest) => if (skipWs rest).isEmpty then some v else none
  | none => none

/-- Default decision built by extract_json when no JSON can be recovered:
an object with action finish and the (stripped) text as final answer. -/
def finishDefault (t : List Char) : JVal :=
  JVal.obj [("action".toList, JVal.str ("finish".toList)),
            ("final_answer".toList, JVal.str t)]

/-- Span matched by the greedy regex used in extract_json: from the first
opening brace to the last closing brace, spanning newlines (DOTALL). The
result is none when no such span exists. -/
def outerSpan (s : List Char) : Option (List Char) :=
  match s.findIdx? (fun c => c = '{'), s.reverse.findIdx? (fun c => c = '}') with
  | some i, some jr =>
    let j := s.length - 1 - jr
    if i < j then some ((s.drop i).take (j - i + 1)) else none
  | _, _ => none

/-- Model of extract_json in src/main.py: strip the text, try to parse it
whole, then try the greedy first-brace-to-last-brace span, then degrade to
the finish default. -/
def extract_json (t0 : List Char) : JVal :=
  let t := pyStrip t0
  match jsonParse t with
  | some v => v
  | none =>
    match outerSpan t with
    | none => finishDefault t
    | some seg =>
      match jsonParse seg with
      | some v => v
      | none => finishDefault t

/-- True exactly when the value is a Python dict. -/
def jvalIsObj : JVal → Bool
  | JVal.obj _ => true
  | _ => false

/-- Python equality test of a value against a string. -/
def jvalIsStr (v : JVal) (s : List Char) : Bool :=
  match v with
  | JVal.str t => t == s
  | _ => false

/-- Lookup in the dict model; none models a missing key. -/
def objGet : List (List Char × JVal) → List Char → Option JVal
  | [], _ => none
  | (k0, v0) :: rest, k => if k0 = k then some v0 else objGet rest k

/-- Python dict.get with a default. -/
def objGetD (kvs : List (List Char × JVal)) (k : List Char) (d : JVal) : JVal :=
  (objGet kvs k).getD d

/-- Key membership in the dict model. -/
def objHasKey (kvs : List (List Char × JVal)) (k : List Char) : Bool :=
  (objGet kvs k).isSome

/-- Python truthiness of a JSON value. -/
def pyTruthy : JVal → Bool
  | JVal.null => false
  | JVal.bool b => b
  | JVal.num n => n != 0
  | JVal.fnum m _ => m != 0
  | JVal.str s => !s.isEmpty
  | JVal.arr xs => !xs.isEmpty
  | JVal.obj kvs => !kvs.isEmpty

mutual

/-- Model of Python repr restricted to JSON values. Strings are always
quoted with the single-quote character and rendered without escaping, a
simplification of CPython quoting that no claim exercises (claims apply
string conversion to strings and to scalar defaults only). Floats render
as mantissa, letter e, exponent, again only a placeholder. -/
def pyRepr : JVal → List Char
  | JVal.null => "None".toList
  | JVal.bool true => "True".toList
  | JVal.bool false => "False".toList
  | JVal.num n => (toString n).toList
  | JVal.fnum m e => (toString m).toList ++ 'e' :: (toString e).toList
  | JVal.str s => '\x27' :: s ++ ['\x27']
  | JVal.arr xs => '[' :: pyReprList xs ++ [']']
  | JVal.obj kvs => '\x7b' :: pyReprObj kvs ++ ['\x7d']

/-- Comma-space separated reprs of list elements. -/
def pyReprList : List JVal → List Char
  | [] => []
  | [x] => pyRepr x
  | x :: y :: xs => pyRepr x ++ ", ".toList ++ pyReprList (y :: xs)

/-- Comma-space separated reprs of dict items. -/
def pyReprObj : List (List Char × JVal) → List Char
  | [] => []
  | [(k, v)] => '\x27' :: k ++ '\x27' :: ':' :: ' ' :: pyRepr v
  | (k, v) :: e :: rest =>
    '\x27' :: k ++ '\x27' :: ':' :: ' ' :: pyRepr v ++ ", ".toList ++ pyReprObj (e :: rest)

end

/-- Model of Python str applied to a JSON value: strings pass through,
every other value renders as its repr, exactly as in CPython. -/
def pyStr : JVal → List Char
  | JVal.str s => s
  | v => pyRepr v

/-- Model of AgentMemory.load in src/main.py. The store file is an optional
text content, none when the path does not exist. The function is total: a
missing file yields the empty list and a JSON decode failure is caught and
degrades to the empty list, so no exception escapes. -/
def AgentMemory.load : Option (List Char) → JVal
  | none => JVal.arr []
  | some content =>
    match jsonParse content with
    | some v => v
    | none => JVal.arr []

/-- Characters kept by the character class in the skill name derivation:
ASCII alphanumerics, dot, underscore, hyphen. -/
def allowedChar (c : Char) : Bool :=
  c.isAlpha || c.isDigit || c = '.' || c = '_' || c = '-'

/-- Model of re.sub replacing each run of disallowed characters with one
hyphen; inRun records whether the previous character was inside such a
run. -/
def subDisallowed : List Char → Bool → List Char
  | [], _ => []
  | c :: rest, inRun =>
    if allowedChar c then c :: subDisallowed rest false
    else if inRun then subDisallowed rest true
    else '-' :: subDisallowed rest true

/-- Model of Python str.strip with the hyphen argument. -/
def stripHyphens (s : List Char) : List Char :=
  ((s.dropWhile (fun c => c = '-')).reverse.dropWhile (fun c => c = '-')).reverse

/-- Last n characters, the Python slice from index minus n. -/
def lastChars (n : Nat) (s : List Char) : List Char := s.drop (s.length - n)

/-- Model of the skill name derivation of SkillRegistry (written with a
leading underscore in the source): replace runs of disallowed characters by
one hyphen, strip leading and trailing hyphens, keep the last 64 characters,
fall back to the fixed name when the result is empty. -/
def deriveName (url : List Char) : List Char :=
  let t := lastChars 64 (stripHyphens (subDisallowed url false))
  if t.isEmpty then "external-skill".toList else t

/-- Outcome of install_from_url: the subdirectory name and body written
(none when the download failed) and the returned message. -/
structure InstallOutcome where
  written : Option (List Char × List Char)
  result : List Char

/-- Model of SkillRegistry.install_from_url. The private download helper
performs network and process effects, so its result is passed as the
download parameter: an optional body plus a source description, exactly the
pair the helper returns. The name argument goes through a Python or, so an
empty string falls back to the derived name. -/
def install_from_url (download : Option (List Char) × List Char)
    (url : List Char) (name : Option (List Char)) : InstallOutcome :=
  match download with
  | (none, source) => ⟨none, source⟩
  | (some body, source) =>
    let skillName :=
      match name with
      | some n => if n.isEmpty then deriveName url else n
      | none => deriveName url
    ⟨some (skillName, body),
      "Installed skill \x27".toList ++ skillName ++ "\x27 from ".toList
        ++ url ++ " via ".toList ++ source⟩

/-- Python exceptions distinguished by the agent loop, with their message:
the loop catches TypeError around the tool call and nothing else. -/
inductive PyExc where
  | typeError : List Char → PyExc
  | attrError : List Char → PyExc
  | otherExc : List Char → PyExc
deriving DecidableEq

/-- Behaviour of one registered tool: the observation text returned for the
given keyword arguments, or the exception the call raises. The function
models the full call, keyword unpacking included, so a call with arguments
that do not fit the signature is a typeError result. -/
abbrev ToolFun := JVal → Except PyExc (List Char)

/-- State threaded through the agent loop: the in-memory memory list, the
run history as phase-data pairs, the index of the next LLM call, the index
of the next clock read, counters of execution-prompt queries and tool
invocations, and the log of memory lists written to the store, one entry
per save call. -/
structure RunState where
  memory : List JVal
  history : List (List Char × JVal)
  llmIdx : Nat
  clockIdx : Nat
  execCalls : Nat
  toolCalls : Nat
  saved : List (List JVal)

/-- Outcome of one loop iteration: continue, return a final text, or abort
with an uncaught exception. -/
inductive StepRes where
  | next : RunState → StepRes
  | ret : RunState → List Char → StepRes
  | exc : RunState → PyExc → StepRes

/-- Record a history event. -/
def pushHist (st : RunState) (phase : List Char) (data : JVal) : RunState :=
  { st with history := st.history ++ [(phase, data)] }

/-- Append a memory entry. -/
def pushMem (st : RunState) (entry : JVal) : RunState :=
  { st with memory := st.memory ++ [entry] }

/-- Model of memory_store.save: log the list written to the file. -/
def saveMemory (st : RunState) : RunState :=
  { st with saved := st.saved ++ [st.memory] }

/-- Memory record carrying the goal, a timestamp and one payload field. -/
def memEntry (goal ts fieldName : List Char) (v : JVal) : JVal :=
  JVal.obj [("goal".toList, JVal.str goal), ("timestamp".toList, JVal.str ts),
            (fieldName, v)]

/-- Model of the item assignment stamping the step number onto the decision:
Python raises TypeError when the subscripted value is not a dict. Message
texts follow CPython. -/
def setStepItem (v : JVal) (stepNo : Nat) : Except PyExc (List (List Char × JVal)) :=
  match v with
  | JVal.obj kvs => Except.ok (objSet kvs ("step".toList) (JVal.num (Int.ofNat stepNo)))
  | JVal.arr _ =>
    Except.error (PyExc.typeError ("list indices must be integers or slices, not str".toList))
  | JVal.str _ =>
    Except.error (PyExc.typeError ("\x27str\x27 object does not support item assignment".toList))
  | JVal.num _ =>
    Except.error (PyExc.typeError ("\x27int\x27 object does not support item assignment".toList))
  | JVal.fnum _ _ =>
    Except.error (PyExc.typeError ("\x27float\x27 object does not support item assignment".toList))
  | JVal.bool _ =>
    Except.error (PyExc.typeError ("\x27bool\x27 object does not support item assignment".toList))
  | JVal.null =>
    Except.error (PyExc.typeError ("\x27NoneType\x27 object does not support item assignment".toList))

/-- Model of self.tools.get applied to the action value: dict lookup raises
TypeError on an unhashable key (a dict or a list) and returns none for any
other absent key. -/
def toolsGet (tools : List (List Char × ToolFun)) (action : JVal) :
    Except PyExc (Option ToolFun) :=
  match action with
  | JVal.obj _ => Except.error (PyExc.typeError ("unhashable type: \x27dict\x27".toList))
  | JVal.arr _ => Except.error (PyExc.typeError ("unhashable type: \x27list\x27".toList))
  | JVal.str s => Except.ok ((tools.find? (fun kv => kv.1 == s)).map Prod.snd)
  | _ => Except.ok none

/-- Model of the except TypeError handler around the tool call: a TypeError
becomes an observation string, any other exception propagates. -/
def catchTypeError (r : Except PyExc (List Char)) : Except PyExc (List Char) :=
  match r with
  | Except.error (PyExc.typeError m) => Except.ok ("Invalid tool input: ".toList ++ m)
  | r => r

/-- Model of the Python or chain selecting the review answer: final_answer
when truthy, else reason when truthy, else the fixed text. -/
def reviewAnswer (rkvs : List (List Char × JVal)) : JVal :=
  let fa := (objGet rkvs ("final_answer".toList)).getD JVal.null
  if pyTruthy fa then fa
  else
    let rs := (objGet rkvs ("reason".toList)).getD JVal.null
    if pyTruthy rs then rs else JVal.str ("Done.".toList)

/-- One iteration of the loop body of AutonomousAgent.run, translated
statement by statement from src/main.py. llm gives the text answered to the
i-th chat call of the run and clock the text of the i-th modelled utc_now
call; prompt construction performs no branching and is not modelled. -/
def stepRun (llm : Nat → List Char) (clock : Nat → List Char)
    (tools : List (List Char × ToolFun)) (goal : List Char)
    (stepNo : Nat) (st0 : RunState) : StepRes :=
  let execRaw := llm st0.llmIdx
  let st := { st0 with llmIdx := st0.llmIdx + 1, execCalls := st0.execCalls + 1 }
  let d := extract_json execRaw
  match setStepItem d stepNo with
  | Except.error e => StepRes.exc st e
  | Except.ok kvs =>
    let dec := JVal.obj kvs
    let st := pushHist st ("execute".toList) dec
    let ts := clock st.clockIdx
    let st := { st with clockIdx := st.clockIdx + 1 }
    let st := pushMem st (memEntry goal ts ("decision".toList) dec)
    let action := objGetD kvs ("action".toList) (JVal.str ("finish".toList))
    if jvalIsStr action ("finish".toList) then
      let st := saveMemory st
      StepRes.ret st (pyStr (objGetD kvs ("final_answer".toList) (JVal.str ("Done.".toList))))
    else
      match toolsGet tools action with
      | Except.error e => StepRes.exc st e
      | Except.ok none =>
        StepRes.next
          (pushHist st ("observation".toList)
            (JVal.str ("Unknown action: ".toList ++ pyStr action)))
      | Except.ok (some tool) =>
        let kwargs0 := objGetD kvs ("input".toList) (JVal.obj [])
        let kwargs := if pyTruthy kwargs0 then kwargs0 else JVal.obj []
        let st := { st with toolCalls := st.toolCalls + 1 }
        match catchTypeError (tool kwargs) with
        | Except.error e => StepRes.exc st e
        | Except.ok obs =>
          let st := pushHist st ("observation".toList) (JVal.str obs)
          let ts2 := clock st.clockIdx
          let st := { st with clockIdx := st.clockIdx + 1 }
          let st := pushMem st (memEntry goal ts2 ("observation".toList) (JVal.str obs))
          let reviewRaw := llm st.llmIdx
          let st := { st with llmIdx := st.llmIdx + 1 }
          let review := extract_json reviewRaw
          let st := pushHist st ("review".toList) review
          match review with
          | JVal.obj rkvs =>
            if pyTruthy ((objGet rkvs ("done".toList)).getD JVal.null) then
              let st := saveMemory st
              StepRes.ret st (pyStr (reviewAnswer rkvs))
            else StepRes.next st
          | _ =>
            StepRes.exc st (PyExc.attrError ("object has no attribute \x27get\x27".toList))

/-- Sentinel returned when the step budget is exhausted. -/
def maxStepsSentinel : List Char := "Reached max steps without finishing.".toList

/-- Iteration of the loop of AutonomousAgent.run: rem is the number of
remaining steps and stepNo the number of the next step. The exhausted case
persists memory and returns the sentinel. -/
def runLoop (llm : Nat → List Char) (clock : Nat → List Char)
    (tools : List (List Char × ToolFun)) (goal : List Char) :
    Nat → Nat → RunState → RunState × Except PyExc (List Char)
  | _, 0, st => (saveMemory st, Except.ok maxStepsSentinel)
  | stepNo, rem+1, st =>
    match stepRun llm clock tools goal stepNo st with
    | StepRes.next st2 => runLoop llm clock tools goal (stepNo+1) rem st2
    | StepRes.ret st2 v => (st2, Except.ok v)
    | StepRes.exc st2 e => (st2, Except.error e)

/-- Model of AutonomousAgent.run from the point where the memory store has
been loaded: memory0 is the loaded list and maxSteps the step budget. The
planner call consumes the first LLM response; the extracted plan is recorded
as a history event and otherwise used only in prompt text. -/
def AutonomousAgent.run (llm : Nat → List Char) (clock : Nat → List Char)
    (tools : List (List Char × ToolFun)) (goal : List Char)
    (maxSteps : Nat) (memory0 : List JVal) : RunState × Except PyExc (List Char) :=
  let st0 : RunState := ⟨memory0, [], 0, 0, 0, 0, []⟩
  let plannerRaw := llm st0.llmIdx
  let st1 := { st0 with llmIdx := st0.llmIdx + 1 }
  let plan := extract_json plannerRaw
  let st2 := pushHist st1 ("plan".toList) plan
  runLoop llm clock tools goal 1 maxSteps st2

/-- Whether a recorded execute-phase decision takes the finish branch: the
action field defaults to finish when absent, as in the source. -/
def decisionIsFinish (v : JVal) : Bool :=
  match v with
  | JVal.obj kvs =>
    jvalIsStr (objGetD kvs ("action".toList) (JVal.str ("finish".toList))) ("finish".toList)
  | _ => false

/-- Whether a recorded review verdict has a truthy done field. -/
def reviewDone (v : JVal) : Bool :=
  match v with
  | JVal.obj kvs => pyTruthy ((objGet kvs ("done".toList)).getD JVal.null)
  | _ => false

/-- LLM stub answering an empty JSON object to every query. -/
def llmEmptyObj : Nat → List Char := fun _ => "\x7b\x7d".toList

/-- LLM stub whose execution decisions name an unknown action. -/
def llmUnknownAction : Nat → List Char :=
  fun i => if i = 0 then "\x7b\x7d".toList else "\x7b\"action\": \"wait\"\x7d".toList

/-- LLM stub answering a bare scalar to every execution query. -/
def llmScalarDecision : Nat → List Char :=
  fun i => if i = 0 then "plan".toList else "7".toList

/-- Constant clock stub. -/
def clockT : Nat → List Char := fun _ => "T".toList

/-- Lookup after setting a different key is unchanged. -/
theorem objGet_objSet_ne (kvs : List (List Char × JVal)) (k k' : List Char) (v : JVal)
    (h : k' ≠ k) : objGet (objSet kvs k v) k' = objGet kvs k' := by
  induction kvs with
  | nil =>
    have : ¬(k = k') := fun e => h e.symm
    simp [objSet, objGet, this]
  | cons kv rest ih =>
    obtain ⟨k0, v0⟩ := kv
    by_cases h0 : k0 = k
    · subst h0
      have : ¬(k0 = k') := fun e => h (e.symm)
      simp [objSet, objGet, this]
    · by_cases h1 : k0 = k'
      · subst h1
        simp [objSet, objGet, h0]
      · simp [objSet, objGet, h0, h1, ih]

/-- Claim C3 (code bug evidence): on the input consisting of the digits 42,
which is valid JSON of a non-object type, the extractor returns the number
42 and not a mapping, contradicting the claim and the declared dict return
type of extract_json in the source. The Lean model is a total function, so
the never-raises part of the claim does hold. -/
theorem extract_json_nonmapping_on_scalar :
    extract_json ("42".toList) = JVal.num 42 ∧
      jvalIsObj (extract_json ("42".toList)) = false := by
  exact ⟨by rfl, by rfl⟩

/-- Claim C5: loading the memory store never raises; an absent file and
unparseable content both degrade to the empty sequence. Totality of
AgentMemory.load gives the never-raises part; the two equations are the
degraded results. -/
theorem load_absent_or_corrupt_empty :
    AgentMemory.load none = JVal.arr [] ∧
      ∀ content : List Char, jsonParse content = none →
        AgentMemory.load (some content) = JVal.arr [] := by
  refine ⟨rfl, fun content h => ?_⟩
  simp [AgentMemory.load, h]

/-- Witness for claim C5 at a concrete corrupt store content. -/
theorem load_absent_or_corrupt_empty_witness :
    jsonParse ("\x7boops".toList) = none ∧
      AgentMemory.load (some ("\x7boops".toList)) = JVal.arr [] :=
  ⟨by rfl, load_absent_or_corrupt_empty.2 ("\x7boops".toList) (by rfl)⟩

/-- Claim C6: when the whole stripped text is not valid JSON but the greedy
span from the first opening brace to the last closing brace parses as JSON,
the extractor returns exactly that parsed value. -/
theorem extract_json_embedded_object (t seg : List Char) (v : JVal)
    (hwhole : jsonParse (pyStrip t) = none)
    (hspan : outerSpan (pyStrip t) = some seg)
    (hseg : jsonParse seg = some v) :
    extract_json t = v := by
  simp [extract_json, hwhole, hspan, hseg]

/-- Witness for claim C6: prose around a nested object; the greedy span is
the whole outermost object, not the first balanced brace pair. -/
theorem extract_json_embedded_object_witness :
    extract_json ("Note \x7b\"a\": \x7b\"b\": 2\x7d\x7d end".toList) =
      JVal.obj [("a".toList, JVal.obj [("b".toList, JVal.num 2)])] :=
  extract_json_embedded_object ("Note \x7b\"a\": \x7b\"b\": 2\x7d\x7d end".toList)
    ("\x7b\"a\": \x7b\"b\": 2\x7d\x7d".toList)
    (JVal.obj [("a".toList, JVal.obj [("b".toList, JVal.num 2)])])
    (by rfl) (by rfl) (by rfl)

/-- Claim C7 counterexample: the input space 42 space contains no brace at
all, yet the extractor returns the parsed number 42 rather than the claimed
finish mapping carrying the original text. -/
theorem extract_json_braceless_counterexample :
    extract_json (" 42 ".toList) = JVal.num 42 ∧
      JVal.num 42 ≠ JVal.obj [("action".toList, JVal.str ("finish".toList)),
        ("final_answer".toList, JVal.str (" 42 ".toList))] := by
  refine ⟨by rfl, fun h => JVal.noConfusion h⟩

/-- Claim C7 amended: for every input containing no brace whose stripped
form is not itself valid JSON, the extractor returns the finish mapping
whose final answer is the input text stripped of surrounding whitespace. -/
theorem extract_json_braceless (t : List Char)
    (hb1 : '{' ∉ t) (_hb2 : '}' ∉ t)
    (hj : jsonParse (pyStrip t) = none) :
    extract_json t = JVal.obj [("action".toList, JVal.str ("finish".toList)),
      ("final_answer".toList, JVal.str (pyStrip t))] := by
  have hsub : ∀ c : Char, c ∈ pyStrip t → c ∈ t := by
    intro c hc
    unfold pyStrip at hc
    rw [List.mem_reverse] at hc
    have hc2 := List.Sublist.mem hc (List.dropWhile_sublist pyIsSpace)
    rw [List.mem_reverse] at hc2
    exact List.Sublist.mem hc2 (List.dropWhile_sublist pyIsSpace)
  have hbrace : (pyStrip t).findIdx? (fun c => c = '{') = none := by
    rw [List.findIdx?_eq_none_iff]
    intro c hc
    simp only [decide_eq_false_iff_not]
    exact fun e => hb1 (e ▸ hsub c hc)
  have hspan : outerSpan (pyStrip t) = none := by
    unfold outerSpan
    rw [hbrace]
  simp [extract_json, hj, hspan, finishDefault]

/-- Witness for the amended claim C7 at a concrete braceless input with
surrounding whitespace. -/
theorem extract_json_braceless_witness :
    extract_json (" hello ".toList) =
      JVal.obj [("action".toList, JVal.str ("finish".toList)),
        ("final_answer".toList, JVal.str ("hello".toList))] :=
  extract_json_braceless (" hello ".toList) (by decide) (by decide) (by rfl)

/-- Runs of allowed characters are untouched by the substitution. -/
theorem subDisallowed_of_allowed (l : List Char) (h : ∀ c ∈ l, allowedChar c = true) :
    ∀ b, subDisallowed l b = l := by
  induction l with
  | nil => intro b; rfl
  | cons c rest ih =>
    intro b
    have hc := h c (by simp)
    simp [subDisallowed, hc]
    exact ih (fun x hx => h x (by simp [hx])) false

/-- Stripping hyphens is the identity when neither end is a hyphen. -/
theorem stripHyphens_eq_self (l : List Char) (h1 : l.head? ≠ some '-')
    (h2 : l.getLast? ≠ some '-') : stripHyphens l = l := by
  unfold stripHyphens
  have d1 : l.dropWhile (fun c => c = '-') = l := by
    cases l with
    | nil => rfl
    | cons a t =>
      have ha : ¬(a = '-') := fun e => h1 (by simp [e])
      simp [List.dropWhile_cons, ha]
  rw [d1]
  have d2 : l.reverse.dropWhile (fun c => c = '-') = l.reverse := by
    cases hr : l.reverse with
    | nil => rfl
    | cons a t =>
      have ha' : l.getLast? = some a := by
        rw [← List.head?_reverse, hr]
        rfl
      have ha : ¬(a = '-') := fun e => h2 (by rw [ha', e])
      simp [List.dropWhile_cons, ha]
  rw [d2, List.reverse_reverse]

/-- Claim C8, corrected: for a nonempty url of allowed characters that
neither starts nor ends with a hyphen, the derived name is the url
truncated to its last 64 characters; and whenever the cleaned, truncated
string is empty, the fixed fallback name is used. -/
theorem deriveName_spec :
    (∀ url : List Char, url ≠ [] → (∀ c ∈ url, allowedChar c = true) →
      url.head? ≠ some '-' → url.getLast? ≠ some '-' →
      deriveName url = lastChars 64 url) ∧
    (∀ url : List Char,
      lastChars 64 (stripHyphens (subDisallowed url false)) = [] →
      deriveName url = "external-skill".toList) := by
  constructor
  · intro url hne hall hh hl
    have h1 : subDisallowed url false = url := subDisallowed_of_allowed url hall false
    have h2 : stripHyphens url = url := stripHyphens_eq_self url hh hl
    have h3 : lastChars 64 url ≠ [] := by
      unfold lastChars
      intro h
      rw [List.drop_eq_nil_iff] at h
      have h4 : url.length ≠ 0 := fun e => hne (List.eq_nil_of_length_eq_zero e)
      omega
    unfold deriveName
    rw [h1, h2]
    simp [List.isEmpty_iff, h3]
  · intro url h
    unfold deriveName
    rw [h]
    rfl

/-- Claim C8 counterexample: the url hyphen a b c uses only allowed
characters, but the derived name strips the leading hyphen and therefore
differs from the url truncated to its last 64 characters. -/
theorem deriveName_counterexample :
    (∀ c ∈ ("-abc".toList), allowedChar c = true) ∧
      deriveName ("-abc".toList) = "abc".toList ∧
      deriveName ("-abc".toList) ≠ lastChars 64 ("-abc".toList) := by
  refine ⟨by decide, by rfl, by decide⟩

/-- Witness for claim C8 at concrete urls: an ordinary allowed-character
name, and a url of slashes whose derivation collapses to empty. -/
theorem deriveName_spec_witness :
    deriveName ("abc.md".toList) = lastChars 64 ("abc.md".toList) ∧
      deriveName ("///".toList) = "external-skill".toList :=
  ⟨deriveName_spec.1 ("abc.md".toList) (by decide) (by decide) (by decide) (by decide),
   deriveName_spec.2 ("///".toList) (by rfl)⟩

/-- Claim C10 amended: when the download succeeds and the caller supplies a
nonempty name, that name is the installed subdirectory name verbatim, with
no sanitization applied. -/
theorem install_explicit_name_verbatim (body source url n : List Char)
    (hn : n ≠ []) :
    (install_from_url (some body, source) url (some n)).written = some (n, body) := by
  have : n.isEmpty = false := by
    cases n with
    | nil => exact absurd rfl hn
    | cons a t => rfl
  simp [install_from_url, this]

/-- Claim C10 counterexample: an explicit but empty caller-supplied name is
not used verbatim; the installed directory name is instead derived from the
url, its spaces replaced by hyphens. -/
theorem install_empty_name_counterexample :
    (install_from_url (some ("B".toList), "curl".toList) ("u r l".toList)
        (some [])).written = some ("u-r-l".toList, "B".toList) ∧
      ("u-r-l".toList : List Char) ≠ ([] : List Char) := by
  refine ⟨by rfl, by decide⟩

/-- Witness for the amended claim C10: a nonempty name with a space is kept
verbatim even though derivation would have replaced the space. -/
theorem install_explicit_name_verbatim_witness :
    (install_from_url (some ("B".toList), "curl".toList) ("a b".toList)
        (some ("my name".toList))).written = some ("my name".toList, "B".toList) :=
  install_explicit_name_verbatim ("B".toList) ("curl".toList) ("a b".toList)
    ("my name".toList) (by decide)

/-- Claim C9: when the extracted decision is a mapping with no action key,
the loop step treats it as a finish action: it saves the accumulated memory
(the decision entry included), returns the string form of the decision's
final_answer value, or Done. when that key is absent too, performs no tool
call, and makes no LLM call beyond the execution query itself, so the
reviewer is never consulted. -/
theorem stepRun_no_action_finishes (llm clock : Nat → List Char)
    (tools : List (List Char × ToolFun)) (goal : List Char) (stepNo : Nat)
    (st0 : RunState) (kvs : List (List Char × JVal))
    (hd : extract_json (llm st0.llmIdx) = JVal.obj kvs)
    (hna : objHasKey kvs ("action".toList) = false) :
    ∃ st1, stepRun llm clock tools goal stepNo st0 = StepRes.ret st1
        (pyStr (objGetD kvs ("final_answer".toList) (JVal.str ("Done.".toList)))) ∧
      st1.saved = st0.saved ++ [st1.memory] ∧
      st1.toolCalls = st0.toolCalls ∧
      st1.llmIdx = st0.llmIdx + 1 := by
  have hget : objGet kvs ("action".toList) = none := by
    unfold objHasKey at hna
    cases h : objGet kvs ("action".toList) with
    | none => rfl
    | some v => rw [h] at hna; simp at hna
  have hset : objGet (objSet kvs ("step".toList) (JVal.num (Int.ofNat stepNo)))
      ("action".toList) = none := by
    rw [objGet_objSet_ne kvs ("step".toList) ("action".toList) _ (by decide)]
    exact hget
  have hfa2 : objGetD (objSet kvs ("step".toList) (JVal.num (Int.ofNat stepNo)))
      ("final_answer".toList) (JVal.str ("Done.".toList)) =
      objGetD kvs ("final_answer".toList) (JVal.str ("Done.".toList)) := by
    unfold objGetD
    rw [objGet_objSet_ne kvs ("step".toList) ("final_answer".toList) _ (by decide)]
  have hcond : jvalIsStr (objGetD (objSet kvs ("step".toList) (JVal.num (Int.ofNat stepNo)))
      ("action".toList) (JVal.str ("finish".toList))) ("finish".toList) = true := by
    unfold objGetD
    rw [hset]
    rfl
  simp only [stepRun, hd, setStepItem]
  split
  case isTrue =>
    rw [hfa2]
    exact ⟨_, rfl, by simp [saveMemory, pushMem, pushHist],
      by simp [saveMemory, pushMem, pushHist], by simp [saveMemory, pushMem, pushHist]⟩
  case isFalse h =>
    exact absurd hcond h

/-- Witness for claim C9: a decision carrying only a final answer ends the
run at this step with that answer, one save, no tool call, one LLM call. -/
theorem stepRun_no_action_finishes_witness :
    ∃ st1, stepRun (fun _ => "\x7b\"final_answer\": \"hi\"\x7d".toList) clockT
        [] ("g".toList) 1 ⟨[], [], 0, 0, 0, 0, []⟩ = StepRes.ret st1 ("hi".toList) ∧
      st1.saved = [] ++ [st1.memory] ∧
      st1.toolCalls = 0 ∧
      st1.llmIdx = 0 + 1 :=
  stepRun_no_action_finishes (fun _ => "\x7b\"final_answer\": \"hi\"\x7d".toList) clockT
    [] ("g".toList) 1 ⟨[], [], 0, 0, 0, 0, []⟩
    [("final_answer".toList, JVal.str ("hi".toList))] (by rfl) (by rfl)

/-- Claim C1 (code bug evidence): a plain LLM behaviour inside the loop
body aborts the run. When the execution response is the digit 7, the
extracted decision is the integer 7 and the step stamping raises an
uncaught TypeError, so the started run raises instead of degrading and
returning a textual result. -/
theorem run_aborts_on_scalar_decision :
    (AutonomousAgent.run llmScalarDecision clockT [] ("g".toList) 1 []).2 =
      Except.error (PyExc.typeError
        ("\x27int\x27 object does not support item assignment".toList)) := by
  rfl

/-- Classification of one loop iteration, used by the loop invariants:
every outcome advances the execution-query counter by exactly one; a
continue outcome performs no save; a return outcome saves exactly once, the
memory held at return time, and its history records the finish decision or
the done review that caused the return. -/
theorem stepRun_cases (llm clock : Nat → List Char)
    (tools : List (List Char × ToolFun)) (goal : List Char)
    (stepNo : Nat) (st0 : RunState) :
    (∃ st1, stepRun llm clock tools goal stepNo st0 = StepRes.next st1 ∧
        st1.execCalls = st0.execCalls + 1 ∧ st1.saved = st0.saved) ∨
    (∃ st1 v, stepRun llm clock tools goal stepNo st0 = StepRes.ret st1 v ∧
        st1.execCalls = st0.execCalls + 1 ∧ st1.saved = st0.saved ++ [st1.memory] ∧
        ((∃ ev ∈ st1.history, ev.1 = ("execute".toList) ∧ decisionIsFinish ev.2 = true) ∨
         (∃ ev ∈ st1.history, ev.1 = ("review".toList) ∧ reviewDone ev.2 = true))) ∨
    (∃ st1 e, stepRun llm clock tools goal stepNo st0 = StepRes.exc st1 e ∧
        st1.execCalls = st0.execCalls + 1) := by
  simp only [stepRun]
  split
  · exact Or.inr (Or.inr ⟨_, _, rfl, rfl⟩)
  · rename_i kvs hkvs
    split
    · rename_i hfin
      refine Or.inr (Or.inl ⟨_, _, rfl, ?_, ?_, Or.inl
        ⟨(("execute".toList), JVal.obj kvs), ?_, rfl, ?_⟩⟩)
      · simp [saveMemory, pushMem, pushHist]
      · simp [saveMemory, pushMem, pushHist]
      · simp [saveMemory, pushMem, pushHist]
      · exact hfin
    · rename_i hnfin
      split
      · exact Or.inr (Or.inr ⟨_, _, rfl, rfl⟩)
      · exact Or.inl ⟨_, rfl, rfl, rfl⟩
      · rename_i tool htool
        split
        · exact Or.inr (Or.inr ⟨_, _, rfl, rfl⟩)
        · rename_i obs hobs
          split
          · rename_i rkvs hrkvs
            split
            · rename_i hdone
              refine Or.inr (Or.inl ⟨_, _, rfl, ?_, ?_, Or.inr
                ⟨(("review".toList), JVal.obj rkvs), ?_, rfl, ?_⟩⟩)
              · simp [saveMemory, pushMem, pushHist]
              · simp [saveMemory, pushMem, pushHist]
              · simp [saveMemory, pushMem, pushHist] at hrkvs ⊢
                simp [hrkvs]
              · exact hdone
            · exact Or.inl ⟨_, rfl, rfl, rfl⟩
          all_goals exact Or.inr (Or.inr ⟨_, _, rfl, rfl⟩)

/-- Loop invariant of runLoop: the execution-query counter grows by at most
the number of remaining steps; and a normal return starting from a state
with an empty save log ends with exactly one saved list, the final memory,
having either exhausted the budget with the sentinel or recorded a finish
decision or a done review in the final history. -/
theorem runLoop_spec (llm clock : Nat → List Char)
    (tools : List (List Char × ToolFun)) (goal : List Char) :
    ∀ (rem stepNo : Nat) (st : RunState),
      (runLoop llm clock tools goal stepNo rem st).1.execCalls ≤ st.execCalls + rem ∧
      (∀ r, (runLoop llm clock tools goal stepNo rem st).2 = Except.ok r →
        st.saved = [] →
        (runLoop llm clock tools goal stepNo rem st).1.saved =
            [(runLoop llm clock tools goal stepNo rem st).1.memory] ∧
          (r = maxStepsSentinel ∨
            (∃ ev ∈ (runLoop llm clock tools goal stepNo rem st).1.history,
              ev.1 = ("execute".toList) ∧ decisionIsFinish ev.2 = true) ∨
            (∃ ev ∈ (runLoop llm clock tools goal stepNo rem st).1.history,
              ev.1 = ("review".toList) ∧ reviewDone ev.2 = true))) := by
  intro rem
  induction rem with
  | zero =>
    intro stepNo st
    constructor
    · simp [runLoop, saveMemory]
    · intro r hr hs
      refine ⟨?_, Or.inl ?_⟩
      · simp [runLoop, saveMemory, hs]
      · simp only [runLoop] at hr
        exact (Except.ok.inj hr).symm
  | succ n ih =>
    intro stepNo st
    rcases stepRun_cases llm clock tools goal stepNo st with
      ⟨st1, heq, hexec, hsav⟩ | ⟨st1, v, heq, hexec, hsav, hev⟩ | ⟨st1, e, heq, hexec⟩
    · constructor
      · simp only [runLoop, heq]
        have h1 := (ih (stepNo+1) st1).1
        omega
      · intro r hr hs
        simp only [runLoop, heq] at hr ⊢
        exact (ih (stepNo+1) st1).2 r hr (by rw [hsav, hs])
    · constructor
      · simp only [runLoop, heq]
        omega
      · intro r hr hs
        simp only [runLoop, heq] at hr ⊢
        cases Except.ok.inj hr
        refine ⟨?_, Or.inr hev⟩
        rw [hsav, hs]
        rfl
    · constructor
      · simp only [runLoop, heq]
        omega
      · intro r hr
        simp only [runLoop, heq] at hr
        exact absurd hr (by simp)

/-- Claim C2: with a step budget N of at least one, a run performs at most
N execution-prompt LLM queries; and whenever the run returns normally while
none of its recorded decisions takes the finish branch and none of its
recorded reviews is a truthy done verdict, it has persisted the final
memory list to the store and returned the fixed exhaustion sentinel. -/
theorem run_budget_and_sentinel (llm clock : Nat → List Char)
    (tools : List (List Char × ToolFun)) (goal : List Char)
    (memory0 : List JVal) (N : Nat) (_hN : 1 ≤ N) :
    (AutonomousAgent.run llm clock tools goal N memory0).1.execCalls ≤ N ∧
    ∀ r, (AutonomousAgent.run llm clock tools goal N memory0).2 = Except.ok r →
      (∀ ev ∈ (AutonomousAgent.run llm clock tools goal N memory0).1.history,
        ev.1 = ("execute".toList) → decisionIsFinish ev.2 = false) →
      (∀ ev ∈ (AutonomousAgent.run llm clock tools goal N memory0).1.history,
        ev.1 = ("review".toList) → reviewDone ev.2 = false) →
      (AutonomousAgent.run llm clock tools goal N memory0).1.saved =
          [(AutonomousAgent.run llm clock tools goal N memory0).1.memory] ∧
        r = maxStepsSentinel := by
  have hrun : AutonomousAgent.run llm clock tools goal N memory0 =
      runLoop llm clock tools goal 1 N
        (pushHist ⟨memory0, [], 0 + 1, 0, 0, 0, []⟩ ("plan".toList)
          (extract_json (llm 0))) := rfl
  have hspec := runLoop_spec llm clock tools goal N 1
    (pushHist ⟨memory0, [], 0 + 1, 0, 0, 0, []⟩ ("plan".toList) (extract_json (llm 0)))
  constructor
  · rw [hrun]
    have h1 := hspec.1
    simpa [pushHist] using h1
  · intro r hr hfin hrev
    rw [hrun] at hr
    obtain ⟨hsav, hdisj⟩ := hspec.2 r hr rfl
    rw [hrun]
    refine ⟨hsav, ?_⟩
    rcases hdisj with h | ⟨ev, hmem, hph, htrue⟩ | ⟨ev, hmem, hph, htrue⟩
    · exact h
    · have hfalse := hfin ev (by rw [hrun]; exact hmem) hph
      rw [hfalse] at htrue
      exact absurd htrue (by simp)
    · have hfalse := hrev ev (by rw [hrun]; exact hmem) hph
      rw [hfalse] at htrue
      exact absurd htrue (by simp)

/-- Witness for claim C2: with budget one and an unknown-action decision,
the run makes at most one execution query, and since its one decision is
not finish and no review happened, it saves once and returns the sentinel. -/
theorem run_budget_and_sentinel_witness :
    (AutonomousAgent.run llmUnknownAction clockT [] ("g".toList) 1 []).1.execCalls ≤ 1 ∧
      (AutonomousAgent.run llmUnknownAction clockT [] ("g".toList) 1 []).1.saved =
        [(AutonomousAgent.run llmUnknownAction clockT [] ("g".toList) 1 []).1.memory] := by
  obtain ⟨h1, h2⟩ :=
    run_budget_and_sentinel llmUnknownAction clockT [] ("g".toList) [] 1 (by decide)
  obtain ⟨h3, _⟩ := h2 maxStepsSentinel (by rfl) (by decide) (by decide)
  exact ⟨h1, h3⟩

/-- Claim C4: on every normal return of a run — finish by action, finish by
review, or exhaustion of the step budget — the store has been written
exactly once, with the full accumulated memory list: the loaded entries
plus every entry appended during the run, as held at return time. -/
theorem run_persists_on_return (llm clock : Nat → List Char)
    (tools : List (List Char × ToolFun)) (goal : List Char)
    (memory0 : List JVal) (maxSteps : Nat) (r : List Char)
    (hr : (AutonomousAgent.run llm clock tools goal maxSteps memory0).2 = Except.ok r) :
    (AutonomousAgent.run llm clock tools goal maxSteps memory0).1.saved =
      [(AutonomousAgent.run llm clock tools goal maxSteps memory0).1.memory] := by
  have hrun : AutonomousAgent.run llm clock tools goal maxSteps memory0 =
      runLoop llm clock tools goal 1 maxSteps
        (pushHist ⟨memory0, [], 0 + 1, 0, 0, 0, []⟩ ("plan".toList)
          (extract_json (llm 0))) := rfl
  rw [hrun] at hr ⊢
  exact ((runLoop_spec llm clock tools goal maxSteps 1
    (pushHist ⟨memory0, [], 0 + 1, 0, 0, 0, []⟩ ("plan".toList)
      (extract_json (llm 0)))).2 r hr rfl).1

/-- Witness for claim C4 at a run that finishes by action on step one. -/
theorem run_persists_on_return_witness :
    (AutonomousAgent.run llmEmptyObj clockT [] ("g".toList) 1 []).1.saved =
      [(AutonomousAgent.run llmEmptyObj clockT [] ("g".toList) 1 []).1.memory] :=
  run_persists_on_return llmEmptyObj clockT [] ("g".toList) [] 1 ("Done.".toList) (by rfl)
